import Mathlib

/-!
Verification development for the Violoncello text browser (src/src/app.js).

The JavaScript source is shallowly embedded: pure computations become Lean
functions, the mutable globals (currUrl, historyStack, flags, reader content)
become an explicit `AppState` record threaded through step functions, and the
single asynchronous boundary (the XHR fetch inside loadPage) is represented by
a `FetchOutcome` parameter supplied by the environment.  Browser platform
primitives (the WHATWG URL parser, decodeURIComponent, URLSearchParams,
encodeURIComponent) are modelled over character lists; the model keeps the
parts the program depends on (scheme recognition and allow-listing, host and
path extraction, query-parameter lookup, percent coding) and simplifies away
userinfo/port/fragment normalization and dot-segment removal, which the
program never relies on.
-/

namespace Violoncello

/-! ### Character-list string helpers (JS string built-ins) -/

/-- Lowercase the characters of a string, as `String.prototype.toLowerCase`
does for ASCII input. -/
def lowerChars (s : String) : List Char := s.data.map Char.toLower

/-- Check whether the pattern occurs contiguously inside the list. -/
def occursIn (pat : List Char) : List Char → Bool
  | [] => pat.isEmpty
  | c :: rest => pat.isPrefixOf (c :: rest) || occursIn pat rest

/-- JS `String.prototype.includes`. -/
def strIncludes (s pat : String) : Bool := occursIn pat.data s.data

/-- JS `String.prototype.startsWith`. -/
def strStartsWith (s pat : String) : Bool := pat.data.isPrefixOf s.data

/-- JS `String.prototype.trim`: drop whitespace from both ends. -/
def trimStr (s : String) : String :=
  String.mk (((s.data.dropWhile Char.isWhitespace).reverse.dropWhile Char.isWhitespace).reverse)

/-- Value of a hexadecimal digit character, if it is one. -/
def hexVal (c : Char) : Option Nat :=
  if '0' ≤ c ∧ c ≤ '9' then some (c.toNat - 48)
  else if 'A' ≤ c ∧ c ≤ 'F' then some (c.toNat - 55)
  else if 'a' ≤ c ∧ c ≤ 'f' then some (c.toNat - 87)
  else none

/-- Split a character list at every occurrence of the separator. -/
def splitOnChar (sep : Char) : List Char → List (List Char)
  | [] => [[]]
  | c :: rest =>
    if c = sep then [] :: splitOnChar sep rest
    else
      match splitOnChar sep rest with
      | [] => [[c]]
      | g :: gs => (c :: g) :: gs

/-! ### WHATWG URL platform model -/

/-- Scheme characters after the first: ALPHA / DIGIT / "+" / "-" / ".". -/
def isSchemeTailChar (c : Char) : Bool :=
  c.isAlpha || c.isDigit || c = '+' || c = '-' || c = '.'

/-- Split `scheme:rest` when the text before the first colon is a well-formed
URL scheme (ALPHA followed by scheme tail characters). -/
def schemeSplit (cs : List Char) : Option (List Char × List Char) :=
  let pre := cs.takeWhile (fun c => c ≠ ':')
  match cs.dropWhile (fun c => c ≠ ':') with
  | ':' :: rest =>
    match pre with
    | [] => none
    | c0 :: cs0 => if c0.isAlpha && cs0.all isSchemeTailChar then some (pre, rest) else none
  | _ => none

/-- Components of a parsed URL, mirroring the JS `URL` object fields the
program reads (`protocol` keeps its trailing colon, `search` its leading
question mark). -/
structure URLRec where
  protocol : String
  hostname : String
  pathname : String
  search : String
deriving DecidableEq

/-- Serialization of a parsed URL, as read back from `URL#href`
(fragment, userinfo and port are not modelled). -/
def URLRec.toHref (u : URLRec) : String :=
  if u.hostname = "" then u.protocol ++ u.pathname ++ u.search
  else u.protocol ++ "//" ++ u.hostname ++ u.pathname ++ u.search

/-- Model of `new URL(s)` for an absolute URL string: recognize the scheme,
then either an authority part (`//host...`, requiring a nonempty host) with
path and query, or an opaque path.  Fragments are dropped; scheme and host are
lowercased. -/
def parseURL (s : String) : Option URLRec :=
  match schemeSplit s.data with
  | none => none
  | some (scheme, rest0) =>
    let proto := String.mk (scheme.map Char.toLower) ++ ":"
    let rest := rest0.takeWhile (fun c => c ≠ '#')
    if ['/', '/'].isPrefixOf rest then
      let afterAuth := rest.drop 2
      let auth := afterAuth.takeWhile (fun c => c ≠ '/' ∧ c ≠ '?')
      let tail := afterAuth.dropWhile (fun c => c ≠ '/' ∧ c ≠ '?')
      let host := auth.takeWhile (fun c => c ≠ ':')
      if host.isEmpty then none
      else
        let path := tail.takeWhile (fun c => c ≠ '?')
        let query := tail.dropWhile (fun c => c ≠ '?')
        some { protocol := proto
               hostname := String.mk (host.map Char.toLower)
               pathname := if path.isEmpty then "/" else String.mk path
               search := String.mk query }
    else
      let path := rest.takeWhile (fun c => c ≠ '?')
      let query := rest.dropWhile (fun c => c ≠ '?')
      some { protocol := proto, hostname := "", pathname := String.mk path
             search := String.mk query }

/-- Directory prefix of a path: everything up to and including its last
slash. -/
def dirOf (path : String) : String :=
  String.mk ((path.data.reverse.dropWhile (fun c => c ≠ '/')).reverse)

/-- Model of `new URL(href, base)`: an absolute `href` wins; otherwise `href`
is resolved against the parsed base (protocol-relative, root-relative,
query-only, empty, or path-relative), failing when the base itself does not
parse or cannot be a base (opaque path). -/
def resolveURLAgainst (href base : String) : Option URLRec :=
  match parseURL href with
  | some u => some u
  | none =>
    match parseURL base with
    | none => none
    | some b =>
      if b.hostname = "" then none
      else
        let cs := href.data.takeWhile (fun c => c ≠ '#')
        if ['/', '/'].isPrefixOf cs then
          parseURL (b.protocol ++ String.mk cs)
        else if ['/'].isPrefixOf cs then
          some { b with pathname := String.mk (cs.takeWhile (fun c => c ≠ '?'))
                        search := String.mk (cs.dropWhile (fun c => c ≠ '?')) }
        else if ['?'].isPrefixOf cs then
          some { b with search := String.mk cs }
        else if cs.isEmpty then
          some b
        else
          some { b with pathname := dirOf b.pathname ++ String.mk (cs.takeWhile (fun c => c ≠ '?'))
                        search := String.mk (cs.dropWhile (fun c => c ≠ '?')) }

/-- Model of `decodeURIComponent` on the character level: every `%` must be
followed by two hexadecimal digits, otherwise the call throws (`none`). -/
def percentDecodeChars : List Char → Option (List Char)
  | [] => some []
  | '%' :: a :: b :: rest =>
    match hexVal a, hexVal b with
    | some x, some y => (percentDecodeChars rest).map (fun l => Char.ofNat (16 * x + y) :: l)
    | _, _ => none
  | '%' :: _ => none
  | c :: rest => (percentDecodeChars rest).map (fun l => c :: l)

/-- Model of `decodeURIComponent`. -/
def decodeURIComponent (s : String) : Option String :=
  (percentDecodeChars s.data).map String.mk

/-- Model of the `application/x-www-form-urlencoded` value decoding performed
by `URLSearchParams`: `+` becomes a space and valid `%XX` escapes are decoded;
malformed escapes are kept literally (the parser never throws). -/
def formDecodeChars : List Char → List Char
  | [] => []
  | '+' :: rest => ' ' :: formDecodeChars rest
  | '%' :: a :: b :: rest =>
    match hexVal a, hexVal b with
    | some x, some y => Char.ofNat (16 * x + y) :: formDecodeChars rest
    | _, _ => '%' :: formDecodeChars (a :: b :: rest)
  | c :: rest => c :: formDecodeChars rest

/-- Model of `new URLSearchParams(search).get(key)`: strip one leading `?`,
split on `&`, ignore empty segments, decode names and values, return the
first value whose decoded name matches. -/
def searchParamsGet (search key : String) : Option String :=
  let qs := match search.data with
    | '?' :: rest => rest
    | l => l
  ((splitOnChar '&' qs).filter (fun seg => ¬seg.isEmpty)).findSome? (fun seg =>
    let name := seg.takeWhile (fun c => c ≠ '=')
    let value := match seg.dropWhile (fun c => c ≠ '=') with
      | '=' :: v => v
      | _ => []
    if String.mk (formDecodeChars name) = key then some (String.mk (formDecodeChars value))
    else none)

/-- Characters `encodeURIComponent` leaves unescaped. -/
def isUnescapedURI (c : Char) : Bool :=
  c.isAlpha || c.isDigit ||
    c = '-' || c = '_' || c = '.' || c = '!' || c = '~' || c = '*' ||
    c.toNat = 39 || c = '(' || c = ')'

/-- UTF-8 bytes of a character (plain arithmetic encoder). -/
def utf8Bytes (c : Char) : List Nat :=
  let n := c.toNat
  if n < 128 then [n]
  else if n < 2048 then [192 + n / 64, 128 + n % 64]
  else if n < 65536 then [224 + n / 4096, 128 + (n / 64) % 64, 128 + n % 64]
  else [240 + n / 262144, 128 + (n / 4096) % 64, 128 + (n / 64) % 64, 128 + n % 64]

/-- Uppercase hexadecimal digit for a value below 16. -/
def hexDigitChar (n : Nat) : Char :=
  if n < 10 then Char.ofNat (48 + n) else Char.ofNat (55 + n)

/-- Model of `encodeURIComponent`: unreserved characters pass through, all
others are percent-encoded byte by byte from their UTF-8 form. -/
def encodeURIComponent (s : String) : String :=
  String.mk (List.flatten (s.data.map (fun c =>
    if isUnescapedURI c then [c]
    else List.flatten ((utf8Bytes c).map (fun b => ['%', hexDigitChar (b / 16), hexDigitChar (b % 16)])))))

/-! ### URL resolver (app.js lines 73-96, 146-169, 360-382) -/

/-- Scheme allow-list used for unwrapping redirectors and rewriting
hyperlinks (app.js lines 84 and 135). -/
def allowedProtocols : List String := ["http:", "https:", "mailto:", "ftp:"]

/-- Hyperlink resolution performed for each anchor during sanitization
(app.js lines 149-161): resolve `href` against the page URL; keep the
absolute serialization when the scheme is allow-listed, otherwise (or when
resolution throws) signal that the attribute must be dropped. -/
def resolveHyperlink (href baseUrl : String) : Option String :=
  match resolveURLAgainst href baseUrl with
  | some resolved =>
    if allowedProtocols.contains resolved.protocol then some resolved.toHref else none
  | none => none

/-- Redirect-wrapper unwrapping at the top of loadPage (app.js lines 73-96):
for a duckduckgo.com `/l/` wrapper URL whose `uddg` parameter decodes to an
absolute URL with an allow-listed scheme, substitute the decoded target;
on any failure keep the original URL. -/
def unwrapRedirector (url : String) : String :=
  match parseURL url with
  | none => url
  | some parsedTemp =>
    if strIncludes parsedTemp.hostname "duckduckgo.com"
        && strStartsWith parsedTemp.pathname "/l/" then
      match searchParamsGet parsedTemp.search "uddg" with
      | none => url
      | some uddg =>
        match decodeURIComponent uddg with
        | none => url
        | some decodedUrl =>
          match parseURL decodedUrl with
          | none => url
          | some parsed =>
            if allowedProtocols.contains parsed.protocol then decodedUrl else url
    else url

/-- Outcome of submitting the URL bar. -/
inductive SubmitResult where
  | noop
  | navigate (url : String)
  | invalidUrl
deriving DecidableEq

/-- URL-bar submission (handleUrlSubmit, app.js lines 360-382): empty input
is ignored; input with no dot or with a space becomes a search query;
otherwise the input (prefixed with `https://` unless it starts with the
literal text `http`) must parse as a URL or an inline error is shown. -/
def handleUrlSubmit (raw : String) : SubmitResult :=
  let input := trimStr raw
  if input = "" then .noop
  else if ¬strIncludes input "." || strIncludes input " " then
    .navigate ("https://duckduckgo.com/html/?q=" ++ encodeURIComponent input)
  else
    let candidate := if strStartsWith input "http" then input else "https://" ++ input
    match parseURL candidate with
    | some _ => .navigate candidate
    | none => .invalidUrl

/-- Check whether a string begins with a well-formed URL scheme prefix. -/
def hasSchemePrefix (s : String) : Bool := (schemeSplit s.data).isSome

/-- Modelled from the spec: the URL-bar resolver as the specification words
it in section 4.1 — the default scheme is prepended "if no scheme prefix is
present" (rather than the source's literal `startsWith('http')` test).
Stated for comparison with `handleUrlSubmit`. -/
def specNormalize (raw : String) : SubmitResult :=
  let input := trimStr raw
  if input = "" then .noop
  else if ¬strIncludes input "." || strIncludes input " " then
    .navigate ("https://duckduckgo.com/html/?q=" ++ encodeURIComponent input)
  else
    let candidate := if hasSchemePrefix input then input else "https://" ++ input
    match parseURL candidate with
    | some _ => .navigate candidate
    | none => .invalidUrl

/-! ### Content tree and sanitizer (app.js lines 123-181) -/

/-- Attribute of a markup element: name and value. -/
abbrev Attr := String × String

mutual
/-- Node of the parsed markup tree (tags and attribute names are stored
lowercase, as the permissive HTML parser normalizes them). -/
inductive HNode where
  | text (s : String)
  | elem (tag : String) (attrs : List Attr) (children : HForest)
deriving DecidableEq
/-- Ordered sequence of sibling nodes. -/
inductive HForest where
  | nil
  | cons (head : HNode) (tail : HForest)
deriving DecidableEq
end

/-- Child list of a node (`childNodes`). -/
def HNode.childNodes : HNode → HForest
  | .text _ => .nil
  | .elem _ _ ch => ch

/-- DOM `getAttribute`: value of the first attribute with the given name. -/
def getAttr (attrs : List Attr) (name : String) : Option String :=
  (attrs.find? (fun a => a.1 = name)).map (fun a => a.2)

/-- DOM `removeAttribute`. -/
def removeAttr (attrs : List Attr) (name : String) : List Attr :=
  attrs.filter (fun a => a.1 ≠ name)

/-- DOM `setAttribute`: replace the value in place, or append the attribute
when absent. -/
def setAttr (attrs : List Attr) (name v : String) : List Attr :=
  if attrs.any (fun a => a.1 = name) then
    attrs.map (fun a => if a.1 = name then (a.1, v) else a)
  else attrs ++ [(name, v)]

/-- DOM `classList.add`: append a class token unless already present
(class tokens separated by spaces). -/
def classListAdd (attrs : List Attr) (cls : String) : List Attr :=
  match getAttr attrs "class" with
  | none => setAttr attrs "class" cls
  | some existing =>
    if (splitOnChar ' ' existing.data).contains cls.data then attrs
    else setAttr attrs "class" (existing ++ " " ++ cls)

/-- Test for the case-insensitive inline-event-handler pattern
`/^on/i` (app.js line 141). -/
def isEventHandlerName (name : String) : Bool :=
  ['o', 'n'].isPrefixOf (lowerChars name)

/-- Element kinds stripped wholesale by the sanitizer's junk selector
(app.js line 130). -/
def junkTags : List String :=
  ["script", "style", "iframe", "ads", "nav", "footer", "img", "video", "svg",
   "input", "button", "form", "noscript", "canvas", "object"]

/-- Attribute pass applied to every surviving element (app.js lines 138-144):
drop the inline style attribute and every `on*` event-handler attribute. -/
def stripAttrs (attrs : List Attr) : List Attr :=
  (removeAttr attrs "style").filter (fun a => ¬isEventHandlerName a.1)

/-- Anchor-specific rewriting (app.js lines 146-168): rewrite or drop the
href via `resolveHyperlink`, mark the link focusable, and strip the window
target. -/
def processAnchor (attrs : List Attr) (baseUrl : String) : List Attr :=
  let a1 := match getAttr attrs "href" with
    | some href =>
      match resolveHyperlink href baseUrl with
      | some abs => setAttr attrs "href" abs
      | none => removeAttr attrs "href"
    | none => attrs
  let a2 := classListAdd a1 "kai-link"
  let a3 := setAttr a2 "tabindex" "0"
  let a4 := removeAttr a3 "target"
  setAttr a4 "rel" "noreferrer"

/-- Full attribute processing for one element: the generic strip pass, then
the anchor pass when the element is a hyperlink. -/
def sanitizeElement (tag : String) (attrs : List Attr) (baseUrl : String) : List Attr :=
  let a := stripAttrs attrs
  if tag = "a" then processAnchor a baseUrl else a

/-- Junk test for one node. -/
def isJunkNode : HNode → Bool
  | .text _ => false
  | .elem tag _ _ => junkTags.contains tag

mutual
/-- Sanitization of one surviving node: process its attributes and recurse
into its children. -/
def sanitizeNode (baseUrl : String) : HNode → HNode
  | .text s => .text s
  | .elem tag attrs ch => .elem tag (sanitizeElement tag attrs baseUrl) (sanitizeForest baseUrl ch)
termination_by structural n => n
/-- Sanitization of a sibling list: junk elements are removed with their
whole subtree (the source performs the junk removal as a first pass and the
attribute pass second; as junk removal depends only on tags, the fused
single pass yields the same tree). -/
def sanitizeForest (baseUrl : String) : HForest → HForest
  | .nil => .nil
  | .cons n t =>
    if isJunkNode n then sanitizeForest baseUrl t
    else .cons (sanitizeNode baseUrl n) (sanitizeForest baseUrl t)
termination_by structural f => f
end

mutual
/-- Safety predicate of the published Content Tree: no script element and no
`on*` event-handler attribute, at any depth. -/
def cleanNode : HNode → Bool
  | .text _ => true
  | .elem tag attrs ch =>
    tag ≠ "script" && attrs.all (fun a => ¬isEventHandlerName a.1) && cleanForest ch
termination_by structural n => n
/-- Forest version of `cleanNode`. -/
def cleanForest : HForest → Bool
  | .nil => true
  | .cons n t => cleanNode n && cleanForest t
termination_by structural f => f
end

/-! ### Spatial focus navigator (getSortedLinks, app.js lines 299-322) -/

/-- Focusable element as getSortedLinks sees it: the rounded measured
position reported by `getBoundingClientRect` and the optional
`data-top`/`data-left` hint attributes.  The `id` field stands for element
identity, so permutations and stability are expressible. -/
structure LinkEl where
  top : Int
  left : Int
  dataTop : Option String
  dataLeft : Option String
  id : Nat
deriving DecidableEq

/-- Accumulate the value of a leading run of decimal digits. -/
def digitsVal (acc : Nat) : List Char → Nat
  | [] => acc
  | c :: rest => if c.isDigit then digitsVal (acc * 10 + (c.toNat - 48)) rest else acc

/-- Model of JS `parseInt(s, 10)`: skip leading whitespace, take an optional
sign and then leading digits; `none` is NaN. -/
def parseIntJS (s : String) : Option Int :=
  let cs := s.data.dropWhile Char.isWhitespace
  let signed : Bool × List Char := match cs with
    | '-' :: rest => (true, rest)
    | '+' :: rest => (false, rest)
    | l => (false, l)
  let ds := signed.2.takeWhile Char.isDigit
  if ds.isEmpty then none
  else
    let n : Int := Int.ofNat (digitsVal 0 ds)
    some (if signed.1 then -n else n)

/-- Value of one fallback hint, following app.js line 312: an absent or empty
attribute falls back to the literal "0", and a NaN parse is collapsed to 0 by
the trailing `|| 0`. -/
def hintVal (attr : Option String) : Int :=
  let s := match attr with
    | some s => if s = "" then "0" else s
    | none => "0"
  match parseIntJS s with
  | some n => n
  | none => 0

/-- Fallback top coordinate of a link. -/
def hintTop (l : LinkEl) : Int := hintVal l.dataTop

/-- Fallback left coordinate of a link. -/
def hintLeft (l : LinkEl) : Int := hintVal l.dataLeft

/-- Lexicographic comparison on (top, left) pairs: the total preorder induced
by the comparator `(a.top - b.top) || (a.left - b.left)`. -/
def posLe (p q : Int × Int) : Prop := p.1 < q.1 ∨ (p.1 = q.1 ∧ p.2 ≤ q.2)

instance : DecidableRel posLe := fun p q => by unfold posLe; infer_instance

/-- Comparator order on measured positions. -/
def measuredLe (a b : LinkEl) : Prop := posLe (a.top, a.left) (b.top, b.left)

instance : DecidableRel measuredLe := fun a b => by unfold measuredLe; infer_instance

/-- Comparator order on the data-attribute hints. -/
def hintLe (a b : LinkEl) : Prop :=
  posLe (hintTop a, hintLeft a) (hintTop b, hintLeft b)

instance : DecidableRel hintLe := fun a b => by unfold hintLe; infer_instance

instance : IsTotal (Int × Int) posLe where
  total p q := by
    unfold posLe
    rcases lt_trichotomy p.1 q.1 with h | h | h
    · exact Or.inl (Or.inl h)
    · rcases le_total p.2 q.2 with h2 | h2
      · exact Or.inl (Or.inr ⟨h, h2⟩)
      · exact Or.inr (Or.inr ⟨h.symm, h2⟩)
    · exact Or.inr (Or.inl h)

instance : IsTrans (Int × Int) posLe where
  trans p q r hpq hqr := by
    unfold posLe at hpq hqr ⊢
    rcases hpq with h | ⟨he, hl⟩
    · rcases hqr with h2 | ⟨he2, _⟩
      · exact Or.inl (h.trans h2)
      · exact Or.inl (he2 ▸ h)
    · rcases hqr with h2 | ⟨he2, hl2⟩
      · exact Or.inl (he ▸ h2)
      · exact Or.inr ⟨he.trans he2, hl.trans hl2⟩

instance : IsTotal LinkEl measuredLe where
  total a b := IsTotal.total (r := posLe) (a.top, a.left) (b.top, b.left)

instance : IsTrans LinkEl measuredLe where
  trans a b c hab hbc :=
    IsTrans.trans (r := posLe) (a.top, a.left) (b.top, b.left) (c.top, c.left) hab hbc

instance : IsTotal LinkEl hintLe where
  total a b := IsTotal.total (r := posLe) (hintTop a, hintLeft a) (hintTop b, hintLeft b)

instance : IsTrans LinkEl hintLe where
  trans a b c hab hbc :=
    IsTrans.trans (r := posLe) (hintTop a, hintLeft a) (hintTop b, hintLeft b)
      (hintTop c, hintLeft c) hab hbc

/-- Computation of the D-Pad reading order (getSortedLinks, app.js lines
299-322): when every rounded measured top coordinate equals 0 the sort runs
on the data hints, otherwise on the measured positions.  JS `Array#sort` is a
stable sort, and a stable sort's output is unique, so the stable
`insertionSort` models it exactly. -/
def getSortedLinks (links : List LinkEl) : List LinkEl :=
  if links.all (fun m => m.top = 0) then List.insertionSort hintLe links
  else List.insertionSort measuredLe links

/-- Modelled from the spec: the ordered-links computation as worded in
section 4.4, which triggers the hint fallback when every element reports "an
identical top coordinate" — not specifically zero.  Stated for comparison
with `getSortedLinks`. -/
def specOrderedLinks (links : List LinkEl) : List LinkEl :=
  let allSameTop := match links with
    | [] => true
    | l :: rest => rest.all (fun m => m.top = l.top)
  if allSameTop then List.insertionSort hintLe links
  else List.insertionSort measuredLe links

/-! ### Retrieval pipeline state machine (loadPage and the Backspace handler,
app.js lines 49-203 and 801-806) -/

/-- Content of the reading surface. -/
inductive ReaderView where
  | welcome
  | page (content : HForest)
  | errorView (msg : String)
deriving DecidableEq

/-- Result of the XHR fetch, the single asynchronous boundary: a transport
error, timeout, or non-2xx status all collapse to `failure` (app.js lines
102-107); a 2xx response carries its Content-Type header and the extraction
root selected from the parsed document (DOMParser plus the querySelector
priority list, app.js lines 123-127, modelled as part of the environment). -/
inductive FetchOutcome where
  | failure
  | success (contentType : Option String) (source : HNode)
deriving DecidableEq

/-- Global mutable state of app.js, as one record. -/
structure AppState where
  isMenuOpen : Bool
  isUrlBarOpen : Bool
  isAboutOpen : Bool
  currUrl : String
  historyStack : List String
  isLoading : Bool
  selectedLinkIndex : Int
  reader : ReaderView
  urlInput : String
  lastVisited : String
  notice : Option String
  closed : Bool
deriving DecidableEq

/-- History capacity (app.js line 16). -/
def MAX_HISTORY : Nat := 50

/-- Bounded history push (app.js lines 65-69): push, then shift off the
oldest entry when the capacity is exceeded. -/
def pushHistory (h : List String) (u : String) : List String :=
  let h2 := h ++ [u]
  if h2.length > MAX_HISTORY then h2.tail else h2

/-- Content-type gate (app.js line 113): a present header that mentions
neither `html` nor a `text/` prefix is rejected. -/
def ctUnsupported (ct : Option String) : Bool :=
  match ct with
  | none => false
  | some ct =>
    ¬strIncludes (String.mk (lowerChars ct)) "html"
      && ¬strStartsWith (String.mk (lowerChars ct)) "text/"

/-- One run of loadPage (app.js lines 49-203) under a given fetch outcome:
the busy guard drops the request; an empty URL shows an inline error; the
forward-history push happens before the fetch; the effective URL is the
unwrapped one; failure renders the generic error view; an unsupported
content type only raises a notice; success publishes the sanitized content,
clears the link selection and commits the Document Location.  The busy flag
is set on entry and cleared on every exit, so it is unchanged across the
whole step. -/
def loadPage (st : AppState) (url : String) (isBackAction : Bool)
    (outcome : FetchOutcome) : AppState :=
  if st.isLoading then st
  else if url = "" then { st with reader := .errorView "Invalid URL" }
  else
    let hist :=
      if ¬isBackAction ∧ st.currUrl ≠ "" ∧ st.currUrl ≠ url then
        pushHistory st.historyStack st.currUrl
      else st.historyStack
    let effUrl := unwrapRedirector url
    match outcome with
    | .failure =>
      { st with historyStack := hist
                reader := .errorView
                  "Failed to load page. Site may be blocking access or you may be offline." }
    | .success ct source =>
      if ctUnsupported ct then
        { st with historyStack := hist
                  notice := some "This content type cannot be rendered in-app." }
      else
        { st with historyStack := hist
                  reader := .page (sanitizeForest effUrl source.childNodes)
                  selectedLinkIndex := -1
                  currUrl := effUrl
                  urlInput := effUrl
                  lastVisited := effUrl }

/-- Outcomes on which loadPage aborts without committing a location: a
failed fetch or an unsupported content type. -/
def failedOutcome : FetchOutcome → Bool
  | .failure => true
  | .success ct _ => ctUnsupported ct

/-- Keydown handling for Backspace (app.js lines 693-710 and 801-806): an
open About screen or an open menu is closed; an open URL bar with an empty
input is closed; otherwise a non-empty History Stack is popped — note the
pop is evaluated before loadPage's busy guard — and the popped location is
reloaded with the forward push suppressed; with no history the window is
closed. -/
def backspaceStep (st : AppState) (outcome : FetchOutcome) : AppState :=
  if st.isAboutOpen then { st with isAboutOpen := false }
  else if st.isUrlBarOpen then
    if st.urlInput = "" then { st with isUrlBarOpen := false } else st
  else if st.isMenuOpen then { st with isMenuOpen := false }
  else
    match st.historyStack.getLast? with
    | some popped =>
      loadPage { st with historyStack := st.historyStack.dropLast } popped true outcome
    | none => { st with closed := true }

/-- Navigation event: one loadPage invocation with its fetch outcome. -/
inductive NavEvent where
  | nav (url : String) (isBack : Bool) (outcome : FetchOutcome)

/-- Run a sequence of navigations. -/
def runNav : AppState → List NavEvent → AppState
  | st, [] => st
  | st, NavEvent.nav url b o :: rest => runNav (loadPage st url b o) rest

/-- Application state on first launch with no saved location (app.js lines
6-17 and 880-896): welcome screen, empty location, empty history. -/
def initialState : AppState :=
  { isMenuOpen := false, isUrlBarOpen := false, isAboutOpen := false
    currUrl := "", historyStack := [], isLoading := false
    selectedLinkIndex := -1, reader := .welcome, urlInput := ""
    lastVisited := "", notice := none, closed := false }

/-! ### Attribute-manipulation lemmas -/

/-- Filtering with a predicate that keeps every attribute named `k` does not
change `getAttr _ k`. -/
theorem getAttr_filter (l : List Attr) (p : Attr → Bool) (k : String)
    (hk : ∀ a : Attr, a.1 = k → p a = true) :
    getAttr (l.filter p) k = getAttr l k := by
  induction l with
  | nil => rfl
  | cons a l ih =>
    by_cases hak : a.1 = k
    · rw [List.filter_cons, if_pos (hk a hak)]
      simp [getAttr, List.find?, hak]
    · rw [List.filter_cons]
      by_cases hp : p a = true
      · rw [if_pos hp]
        simpa [getAttr, List.find?, hak] using ih
      · rw [if_neg hp]
        simpa [getAttr, List.find?, hak] using ih

/-- Removing a differently named attribute does not change `getAttr _ k`. -/
theorem getAttr_removeAttr_ne (l : List Attr) (k k2 : String) (h : k ≠ k2) :
    getAttr (removeAttr l k2) k = getAttr l k := by
  apply getAttr_filter
  intro a hak
  subst hak
  simpa using h

/-- Removing an attribute makes it absent. -/
theorem getAttr_removeAttr_self (l : List Attr) (k : String) :
    getAttr (removeAttr l k) k = none := by
  induction l with
  | nil => rfl
  | cons a l ih =>
    by_cases hak : a.1 = k
    · simpa [removeAttr, List.filter_cons, hak] using ih
    · rw [removeAttr, List.filter_cons, if_pos (by simpa using hak)]
      simp [getAttr, List.find?, hak]

/-- Key-preserving value replacement does not change `getAttr _ k` for other
keys. -/
theorem getAttr_map_set_ne (l : List Attr) (k k2 v : String) (h : k ≠ k2) :
    getAttr (l.map (fun a => if a.1 = k2 then (a.1, v) else a)) k = getAttr l k := by
  induction l with
  | nil => rfl
  | cons a l ih =>
    by_cases hak : a.1 = k2
    · have hne : ¬a.1 = k := fun e => h (e.symm.trans hak)
      unfold getAttr at ih ⊢
      rw [List.map_cons, if_pos hak,
        List.find?_cons_of_neg _ (by simpa using hne),
        List.find?_cons_of_neg _ (by simpa using hne)]
      exact ih
    · by_cases hk1 : a.1 = k
      · unfold getAttr
        rw [List.map_cons, if_neg hak,
          List.find?_cons_of_pos _ (by simpa using hk1),
          List.find?_cons_of_pos _ (by simpa using hk1)]
      · unfold getAttr at ih ⊢
        rw [List.map_cons, if_neg hak,
          List.find?_cons_of_neg _ (by simpa using hk1),
          List.find?_cons_of_neg _ (by simpa using hk1)]
        exact ih

/-- Setting a differently named attribute does not change `getAttr _ k`. -/
theorem getAttr_setAttr_ne (l : List Attr) (k k2 v : String) (h : k ≠ k2) :
    getAttr (setAttr l k2 v) k = getAttr l k := by
  unfold setAttr
  by_cases hany : l.any (fun a => a.1 = k2) = true
  · rw [if_pos hany]
    exact getAttr_map_set_ne l k k2 v h
  · rw [if_neg hany, getAttr, List.find?_append]
    cases hfind : l.find? (fun a : Attr => a.1 = k) with
    | some a => simp [getAttr, hfind]
    | none => simp [getAttr, hfind, List.find?, Ne.symm h]

/-- Value replacement at key `k` yields the new value when some attribute has
key `k`. -/
theorem getAttr_map_set_self (l : List Attr) (k v : String)
    (hany : l.any (fun a => a.1 = k) = true) :
    getAttr (l.map (fun a => if a.1 = k then (a.1, v) else a)) k = some v := by
  induction l with
  | nil => simp at hany
  | cons a l ih =>
    by_cases hak : a.1 = k
    · simp [getAttr, List.find?, List.map_cons, if_pos hak, hak]
    · simp only [List.any_cons, Bool.or_eq_true, decide_eq_true_eq] at hany
      rcases hany with h | h
      · exact absurd h hak
      · simpa [List.map_cons, if_neg hak, getAttr, List.find?, hak] using ih h

/-- Setting an attribute makes `getAttr` return the new value. -/
theorem getAttr_setAttr_self (l : List Attr) (k v : String) :
    getAttr (setAttr l k v) k = some v := by
  unfold setAttr
  by_cases hany : l.any (fun a => a.1 = k) = true
  · rw [if_pos hany]
    exact getAttr_map_set_self l k v hany
  · rw [if_neg hany, getAttr, List.find?_append]
    have hnone : l.find? (fun a : Attr => decide (a.1 = k)) = none := by
      rw [List.find?_eq_none]
      intro x hx
      simp only [Bool.not_eq_true, decide_eq_false_iff_not]
      intro hxk
      exact hany (List.any_of_mem hx (by simpa using hxk))
    simp [hnone, List.find?]

/-- Adding a class token does not change `getAttr _ k` for keys other than
`class`. -/
theorem getAttr_classListAdd_ne (l : List Attr) (cls k : String) (h : k ≠ "class") :
    getAttr (classListAdd l cls) k = getAttr l k := by
  unfold classListAdd
  cases hcl : getAttr l "class" with
  | none => exact getAttr_setAttr_ne l k "class" cls h
  | some existing =>
    dsimp only
    split
    · rfl
    · exact getAttr_setAttr_ne l k "class" (existing ++ " " ++ cls) h

/-! ### Sanitizer cleanliness lemmas -/

/-- Attributes surviving the strip pass have no event-handler names. -/
theorem stripAttrs_clean (l : List Attr) :
    (stripAttrs l).all (fun a => ¬isEventHandlerName a.1) = true := by
  rw [List.all_eq_true]
  intro a ha
  simpa using (List.mem_filter.mp ha).2

/-- Setting an attribute with a safe name preserves cleanliness. -/
theorem all_clean_setAttr (l : List Attr) (k v : String)
    (hk : isEventHandlerName k = false)
    (hl : l.all (fun a => ¬isEventHandlerName a.1) = true) :
    (setAttr l k v).all (fun a => ¬isEventHandlerName a.1) = true := by
  rw [List.all_eq_true] at hl ⊢
  intro a ha
  unfold setAttr at ha
  by_cases hany : l.any (fun a => a.1 = k) = true
  · rw [if_pos hany] at ha
    rcases List.mem_map.mp ha with ⟨b, hb, rfl⟩
    by_cases hbk : b.1 = k
    · simp [if_pos hbk, hbk, hk]
    · simpa [if_neg hbk] using hl b hb
  · rw [if_neg hany] at ha
    rcases List.mem_append.mp ha with hmem | hmem
    · exact hl a hmem
    · rcases List.mem_singleton.mp hmem with rfl
      simp [hk]

/-- Removing an attribute preserves cleanliness. -/
theorem all_clean_removeAttr (l : List Attr) (k : String)
    (hl : l.all (fun a => ¬isEventHandlerName a.1) = true) :
    (removeAttr l k).all (fun a => ¬isEventHandlerName a.1) = true := by
  rw [List.all_eq_true] at hl ⊢
  intro a ha
  exact hl a (List.mem_filter.mp ha).1

/-- Adding a class token preserves cleanliness. -/
theorem all_clean_classListAdd (l : List Attr) (cls : String)
    (hl : l.all (fun a => ¬isEventHandlerName a.1) = true) :
    (classListAdd l cls).all (fun a => ¬isEventHandlerName a.1) = true := by
  unfold classListAdd
  cases getAttr l "class" with
  | none => exact all_clean_setAttr l "class" cls (by decide) hl
  | some existing =>
    dsimp only
    split
    · exact hl
    · exact all_clean_setAttr l "class" (existing ++ " " ++ cls) (by decide) hl

/-- Cleanliness is preserved by the tail of the anchor pass. -/
theorem anchorTail_clean (l : List Attr)
    (hl : l.all (fun a => ¬isEventHandlerName a.1) = true) :
    (setAttr (removeAttr (setAttr (classListAdd l "kai-link") "tabindex" "0") "target")
        "rel" "noreferrer").all (fun a => ¬isEventHandlerName a.1) = true := by
  apply all_clean_setAttr _ _ _ (by decide)
  apply all_clean_removeAttr
  apply all_clean_setAttr _ _ _ (by decide)
  exact all_clean_classListAdd l "kai-link" hl

/-- Every element that survives sanitization carries no event-handler
attribute. -/
theorem sanitizeElement_clean (tag : String) (attrs : List Attr) (baseUrl : String) :
    (sanitizeElement tag attrs baseUrl).all (fun a => ¬isEventHandlerName a.1) = true := by
  unfold sanitizeElement
  by_cases htag : tag = "a"
  · rw [if_pos htag]
    unfold processAnchor
    have h0 := stripAttrs_clean attrs
    cases getAttr (stripAttrs attrs) "href" with
    | none => exact anchorTail_clean _ h0
    | some href =>
      dsimp only
      cases resolveHyperlink href baseUrl with
      | none => exact anchorTail_clean _ (all_clean_removeAttr _ _ h0)
      | some abs => exact anchorTail_clean _ (all_clean_setAttr _ _ _ (by decide) h0)
  · rw [if_neg htag]
    exact stripAttrs_clean attrs

mutual
/-- Sanitizing any non-junk node yields a clean node. -/
theorem cleanNode_sanitizeNode (baseUrl : String) (n : HNode)
    (h : isJunkNode n = false) : cleanNode (sanitizeNode baseUrl n) = true := by
  cases n with
  | text s => rfl
  | elem tag attrs ch =>
    have htag : ¬tag = "script" := by
      intro e
      subst e
      simp [isJunkNode, junkTags] at h
    rw [sanitizeNode, cleanNode]
    simp only [Bool.and_eq_true]
    exact ⟨⟨by simpa using htag, sanitizeElement_clean tag attrs baseUrl⟩,
      cleanForest_sanitizeForest baseUrl ch⟩

/-- Sanitizing any forest yields a clean forest. -/
theorem cleanForest_sanitizeForest (baseUrl : String) (f : HForest) :
    cleanForest (sanitizeForest baseUrl f) = true := by
  cases f with
  | nil => rfl
  | cons n t =>
    rw [sanitizeForest]
    by_cases hj : isJunkNode n = true
    · rw [if_pos hj]
      exact cleanForest_sanitizeForest baseUrl t
    · rw [if_neg hj, cleanForest]
      rw [cleanNode_sanitizeNode baseUrl n (by simpa using hj),
        cleanForest_sanitizeForest baseUrl t]
      rfl
end

/-! ### History lemmas -/

/-- A URL absent from the stack and different from the pushed location stays
absent after a bounded push. -/
theorem not_mem_pushHistory (h : List String) (c u : String)
    (hu : u ∉ h) (hc : u ≠ c) : u ∉ pushHistory h c := by
  have base : u ∉ h ++ [c] := by simp [hu, hc]
  unfold pushHistory
  intro hmem
  by_cases hlen : (h ++ [c]).length > MAX_HISTORY
  · rw [if_pos hlen] at hmem
    exact base (List.mem_of_mem_tail hmem)
  · rw [if_neg hlen] at hmem
    exact base hmem

/-- Bounded pushes keep the stack within capacity. -/
theorem pushHistory_length_le (h : List String) (c : String)
    (hlen : h.length ≤ MAX_HISTORY) : (pushHistory h c).length ≤ MAX_HISTORY := by
  unfold pushHistory
  by_cases hl : (h ++ [c]).length > MAX_HISTORY
  · rw [if_pos hl]
    simp only [List.length_tail, List.length_append, List.length_singleton]
    omega
  · rw [if_neg hl]
    omega

/-- Any loadPage step keeps the stack within capacity. -/
theorem loadPage_history_le (st : AppState) (url : String) (b : Bool)
    (o : FetchOutcome) (hlen : st.historyStack.length ≤ MAX_HISTORY) :
    (loadPage st url b o).historyStack.length ≤ MAX_HISTORY := by
  by_cases hbusy : st.isLoading = true
  · simpa [loadPage, hbusy] using hlen
  · by_cases hurl : url = ""
    · simpa [loadPage, hbusy, hurl] using hlen
    · by_cases hpush : b = false ∧ ¬st.currUrl = "" ∧ ¬st.currUrl = url
      · cases o with
        | failure => simpa [loadPage, hbusy, hurl, hpush] using pushHistory_length_le _ _ hlen
        | success ct src =>
          by_cases hct : ctUnsupported ct = true <;>
            simpa [loadPage, hbusy, hurl, hpush, hct] using pushHistory_length_le _ _ hlen
      · cases o with
        | failure => simpa [loadPage, hbusy, hurl, hpush] using hlen
        | success ct src =>
          by_cases hct : ctUnsupported ct = true <;>
            simpa [loadPage, hbusy, hurl, hpush, hct] using hlen

/-! ### Claim C1 -/

/-- Claim C1: for every input markup, the sanitized Content Tree published by
the load pipeline contains no script element and no attribute whose name
matches the case-insensitive pattern `on*`, at any nesting depth below the
extraction root: every sanitized forest is clean, and a successful load
publishes exactly the sanitized children of the extraction root. -/
theorem c1_sanitized_content_clean :
    (∀ (baseUrl : String) (f : HForest), cleanForest (sanitizeForest baseUrl f) = true)
    ∧ (∀ (st : AppState) (url : String) (isBack : Bool) (ct : Option String) (src : HNode),
        st.isLoading = false → url ≠ "" → ctUnsupported ct = false →
        (loadPage st url isBack (.success ct src)).reader
          = ReaderView.page (sanitizeForest (unwrapRedirector url) src.childNodes)) := by
  constructor
  · exact cleanForest_sanitizeForest
  · intro st url isBack ct src hbusy hurl hct
    simp [loadPage, hbusy, hurl, hct]

/-- Witness for C1: on a concrete page carrying both a script element and an
onclick attribute, the published tree is clean, and a concrete successful
load publishes the sanitized extraction-root children. -/
theorem c1_witness :
    cleanForest (sanitizeForest "https://example.com/"
      (.cons (.elem "div" [("onclick", "evil()")]
        (.cons (.elem "script" [] .nil) (.cons (.text "hi") .nil))) .nil)) = true
    ∧ (loadPage initialState "https://example.com/" false
        (.success none (HNode.elem "body" [] .nil))).reader
      = ReaderView.page (sanitizeForest (unwrapRedirector "https://example.com/")
          (HNode.elem "body" [] .nil).childNodes) :=
  ⟨c1_sanitized_content_clean.1 "https://example.com/" _,
    c1_sanitized_content_clean.2 initialState "https://example.com/" false none
      (HNode.elem "body" [] .nil) (by decide) (by decide) (by decide)⟩

/-! ### Claim C2 -/

/-- Demonstration state: the app is idle on page A with empty history. -/
def stA : AppState := { initialState with currUrl := "https://a.example/" }

/-- Counterexample for C2 as stated: a failed forward load from A to B keeps
the Document Location at A, but the History Stack is not left unchanged —
the prior location A is pushed onto it before the fetch. -/
theorem c2_counterexample :
    (loadPage stA "https://b.example/" false .failure).currUrl = stA.currUrl
    ∧ stA.historyStack = []
    ∧ (loadPage stA "https://b.example/" false .failure).historyStack
        = ["https://a.example/"]
    ∧ (loadPage stA "https://b.example/" false .failure).historyStack
        ≠ stA.historyStack := by decide

/-- Claim C2 as amended: on every failed load (transport failure or
unsupported content type) the Document Location keeps its prior value and
the failed target is never pushed onto the History Stack, but the aborted
forward navigation still pushes the prior location (the push precedes the
fetch), and only the generic error view (on failure) or a notice (on an
unsupported content type, with unchanged reader) is shown. -/
theorem c2_failed_load_keeps_location (st : AppState) (url : String) (o : FetchOutcome)
    (hbusy : st.isLoading = false) (hurl : url ≠ "") (hfail : failedOutcome o = true) :
    (loadPage st url false o).currUrl = st.currUrl
    ∧ (loadPage st url false o).historyStack
        = (if st.currUrl ≠ "" ∧ st.currUrl ≠ url then pushHistory st.historyStack st.currUrl
           else st.historyStack)
    ∧ (url ∉ st.historyStack → url ≠ st.currUrl →
        url ∉ (loadPage st url false o).historyStack)
    ∧ (o = .failure →
        (loadPage st url false o).reader
          = .errorView "Failed to load page. Site may be blocking access or you may be offline.")
    ∧ (∀ ct src, o = .success ct src →
        (loadPage st url false o).reader = st.reader
        ∧ (loadPage st url false o).notice
            = some "This content type cannot be rendered in-app.") := by
  have hmem : ∀ h' : List String,
      h' = (if st.currUrl ≠ "" ∧ st.currUrl ≠ url then pushHistory st.historyStack st.currUrl
            else st.historyStack) →
      url ∉ st.historyStack → url ≠ st.currUrl → url ∉ h' := by
    intro h' he hu hc
    subst he
    by_cases hpush : st.currUrl ≠ "" ∧ st.currUrl ≠ url
    · rw [if_pos hpush]
      exact not_mem_pushHistory _ _ _ hu hc
    · rw [if_neg hpush]
      exact hu
  cases o with
  | failure =>
    refine ⟨?_, ?_, ?_, ?_, ?_⟩
    · by_cases hpush : ¬st.currUrl = "" ∧ ¬st.currUrl = url <;>
        simp [loadPage, hbusy, hurl, hpush]
    · by_cases hpush : ¬st.currUrl = "" ∧ ¬st.currUrl = url <;>
        simp [loadPage, hbusy, hurl, hpush]
    · intro hu hc
      refine hmem _ ?_ hu hc
      by_cases hpush : ¬st.currUrl = "" ∧ ¬st.currUrl = url <;>
        simp [loadPage, hbusy, hurl, hpush]
    · intro _
      by_cases hpush : ¬st.currUrl = "" ∧ ¬st.currUrl = url <;>
        simp [loadPage, hbusy, hurl, hpush]
    · intro ct src h
      cases h
  | success ct src =>
    have hct : ctUnsupported ct = true := by simpa [failedOutcome] using hfail
    refine ⟨?_, ?_, ?_, ?_, ?_⟩
    · by_cases hpush : ¬st.currUrl = "" ∧ ¬st.currUrl = url <;>
        simp [loadPage, hbusy, hurl, hpush, hct]
    · by_cases hpush : ¬st.currUrl = "" ∧ ¬st.currUrl = url <;>
        simp [loadPage, hbusy, hurl, hpush, hct]
    · intro hu hc
      refine hmem _ ?_ hu hc
      by_cases hpush : ¬st.currUrl = "" ∧ ¬st.currUrl = url <;>
        simp [loadPage, hbusy, hurl, hpush, hct]
    · intro h
      cases h
    · intro ct2 src2 h
      cases h
      constructor
      · by_cases hpush : ¬st.currUrl = "" ∧ ¬st.currUrl = url <;>
          simp [loadPage, hbusy, hurl, hpush, hct]
      · by_cases hpush : ¬st.currUrl = "" ∧ ¬st.currUrl = url <;>
          simp [loadPage, hbusy, hurl, hpush, hct]

/-- Witness for C2 amended: the concrete failed load from A to B keeps the
location at A. -/
theorem c2_witness :
    (loadPage stA "https://b.example/" false .failure).currUrl = stA.currUrl :=
  (c2_failed_load_keeps_location stA "https://b.example/" .failure (by decide) (by decide)
    (by decide)).1

/-! ### Claim C3 -/

/-- Claim C3: resolving a hyperlink against the page URL rewrites the href to
the resolved absolute serialization when its scheme is allow-listed; for any
other scheme or on resolution failure the result is none, the sanitizer
removes the href attribute, and the anchor element itself is kept. -/
theorem c3_resolve_hyperlink (href baseUrl : String) (attrs : List Attr)
    (ch rest : HForest) (hhref : getAttr attrs "href" = some href) :
    (∀ u : URLRec, resolveURLAgainst href baseUrl = some u →
        allowedProtocols.contains u.protocol = true →
        resolveHyperlink href baseUrl = some u.toHref
        ∧ getAttr (sanitizeElement "a" attrs baseUrl) "href" = some u.toHref)
    ∧ (∀ u : URLRec, resolveURLAgainst href baseUrl = some u →
        allowedProtocols.contains u.protocol = false →
        resolveHyperlink href baseUrl = none
        ∧ getAttr (sanitizeElement "a" attrs baseUrl) "href" = none)
    ∧ (resolveURLAgainst href baseUrl = none →
        resolveHyperlink href baseUrl = none
        ∧ getAttr (sanitizeElement "a" attrs baseUrl) "href" = none)
    ∧ sanitizeForest baseUrl (.cons (.elem "a" attrs ch) rest)
        = .cons (.elem "a" (sanitizeElement "a" attrs baseUrl) (sanitizeForest baseUrl ch))
            (sanitizeForest baseUrl rest) := by
  have hstrip : getAttr (stripAttrs attrs) "href" = some href := by
    unfold stripAttrs
    rw [getAttr_filter _ _ _ (by intro a ha; simp only [ha]; decide),
      getAttr_removeAttr_ne _ _ _ (by decide)]
    exact hhref
  have htail : ∀ l : List Attr,
      getAttr (setAttr (removeAttr (setAttr (classListAdd l "kai-link") "tabindex" "0")
        "target") "rel" "noreferrer") "href" = getAttr l "href" := by
    intro l
    rw [getAttr_setAttr_ne _ _ _ _ (by decide), getAttr_removeAttr_ne _ _ _ (by decide),
      getAttr_setAttr_ne _ _ _ _ (by decide), getAttr_classListAdd_ne _ _ _ (by decide)]
  have hsome : ∀ abs, resolveHyperlink href baseUrl = some abs →
      getAttr (sanitizeElement "a" attrs baseUrl) "href" = some abs := by
    intro abs hr
    unfold sanitizeElement processAnchor
    rw [if_pos rfl, hstrip]
    dsimp only
    rw [hr]
    dsimp only
    rw [htail]
    exact getAttr_setAttr_self _ _ _
  have hnone : resolveHyperlink href baseUrl = none →
      getAttr (sanitizeElement "a" attrs baseUrl) "href" = none := by
    intro hr
    unfold sanitizeElement processAnchor
    rw [if_pos rfl, hstrip]
    dsimp only
    rw [hr]
    dsimp only
    rw [htail]
    exact getAttr_removeAttr_self _ _
  refine ⟨?_, ?_, ?_, ?_⟩
  · intro u hu hall
    have hres : resolveHyperlink href baseUrl = some u.toHref := by
      unfold resolveHyperlink
      rw [hu]
      dsimp only
      rw [hall]
      simp
    exact ⟨hres, hsome _ hres⟩
  · intro u hu hall
    have hres : resolveHyperlink href baseUrl = none := by
      unfold resolveHyperlink
      rw [hu]
      dsimp only
      rw [hall]
      simp
    exact ⟨hres, hnone hres⟩
  · intro hu
    have hres : resolveHyperlink href baseUrl = none := by
      unfold resolveHyperlink
      rw [hu]
    exact ⟨hres, hnone hres⟩
  · rw [sanitizeForest, if_neg (by simp [isJunkNode, junkTags]), sanitizeNode]

/-- Witness for C3: a relative href on an anchor is rewritten to its absolute
form. -/
theorem c3_witness :
    resolveHyperlink "/about" "https://example.com/dir/page" = some "https://example.com/about"
    ∧ getAttr (sanitizeElement "a" [("href", "/about")] "https://example.com/dir/page") "href"
        = some "https://example.com/about" :=
  (c3_resolve_hyperlink "/about" "https://example.com/dir/page" [("href", "/about")]
    HForest.nil HForest.nil (by decide)).1
    { protocol := "https:", hostname := "example.com", pathname := "/about", search := "" }
    (by decide) (by decide)

/-! ### Claim C4 -/

/-- Claim C4: a URL on the duckduckgo.com host whose path matches the `/l/`
wrapper pattern and whose `uddg` parameter percent-decodes to an absolute URL
with an allow-listed scheme is replaced by that decoded target, and loadPage
uses the unwrapped URL as the effective location; every other URL — or any
decode failure, parse failure or disallowed scheme — leaves the URL
unchanged, with no error raised. -/
theorem c4_unwrap_redirector (url : String) :
    (∀ (p : URLRec) (uddg target : String) (t : URLRec),
        parseURL url = some p →
        strIncludes p.hostname "duckduckgo.com" = true →
        strStartsWith p.pathname "/l/" = true →
        searchParamsGet p.search "uddg" = some uddg →
        decodeURIComponent uddg = some target →
        parseURL target = some t →
        allowedProtocols.contains t.protocol = true →
        unwrapRedirector url = target)
    ∧ ((∃ (p : URLRec) (uddg target : String) (t : URLRec),
          parseURL url = some p
          ∧ strIncludes p.hostname "duckduckgo.com" = true
          ∧ strStartsWith p.pathname "/l/" = true
          ∧ searchParamsGet p.search "uddg" = some uddg
          ∧ decodeURIComponent uddg = some target
          ∧ parseURL target = some t
          ∧ allowedProtocols.contains t.protocol = true)
        ∨ unwrapRedirector url = url)
    ∧ (∀ (st : AppState) (ct : Option String) (src : HNode),
        st.isLoading = false → url ≠ "" → ctUnsupported ct = false →
        (loadPage st url false (.success ct src)).currUrl = unwrapRedirector url) := by
  refine ⟨?_, ?_, ?_⟩
  · intro p uddg target t hp h1 h2 huddg hdec hpt hall
    have hmem : t.protocol ∈ allowedProtocols := by simpa using hall
    simp [unwrapRedirector, hp, h1, h2, huddg, hdec, hpt, hmem]
  · cases hp : parseURL url with
    | none =>
      right
      simp [unwrapRedirector, hp]
    | some p =>
      by_cases h1 : strIncludes p.hostname "duckduckgo.com" = true
      · by_cases h2 : strStartsWith p.pathname "/l/" = true
        · cases huddg : searchParamsGet p.search "uddg" with
          | none =>
            right
            simp [unwrapRedirector, hp, h1, h2, huddg]
          | some uddg =>
            cases hdec : decodeURIComponent uddg with
            | none =>
              right
              simp [unwrapRedirector, hp, h1, h2, huddg, hdec]
            | some target =>
              cases hpt : parseURL target with
              | none =>
                right
                simp [unwrapRedirector, hp, h1, h2, huddg, hdec, hpt]
              | some t =>
                by_cases hall : allowedProtocols.contains t.protocol = true
                · exact Or.inl ⟨p, uddg, target, t, rfl, h1, h2, huddg, hdec, hpt, hall⟩
                · right
                  simp [unwrapRedirector, hp, h1, h2, huddg, hdec, hpt, hall]
                  intro h
                  exact absurd h (by simpa using hall)
        · right
          simp [unwrapRedirector, hp, h1, h2]
      · right
        simp [unwrapRedirector, hp, h1]
  · intro st ct src hbusy hurl hct
    simp [loadPage, hbusy, hurl, hct]

/-- Witness for C4: a concrete duckduckgo wrapper URL unwraps to its embedded
https target. -/
theorem c4_witness :
    unwrapRedirector "https://duckduckgo.com/l/?uddg=https%3A%2F%2Fexample.com%2F"
      = "https://example.com/" :=
  (c4_unwrap_redirector "https://duckduckgo.com/l/?uddg=https%3A%2F%2Fexample.com%2F").1
    { protocol := "https:", hostname := "duckduckgo.com", pathname := "/l/"
      search := "?uddg=https%3A%2F%2Fexample.com%2F" }
    "https://example.com/" "https://example.com/"
    { protocol := "https:", hostname := "example.com", pathname := "/", search := "" }
    (by decide) (by decide) (by decide) (by decide) (by decide) (by decide) (by decide)

/-! ### Claim C5 -/

/-- Counterexample for C5 as stated: the trimmed input `httpfoo.bar` contains
a dot, no whitespace, and no scheme prefix, so the claim demands that
`https://` be prepended and the navigation succeed (as the spec-worded
resolver does); the code instead tests the literal prefix `http`, skips the
default scheme, and fails with the inline InvalidUrl error. -/
theorem c5_counterexample :
    handleUrlSubmit "httpfoo.bar" = SubmitResult.invalidUrl
    ∧ specNormalize "httpfoo.bar" = SubmitResult.navigate "https://httpfoo.bar"
    ∧ hasSchemePrefix "httpfoo.bar" = false := by decide

/-- Claim C5 as amended: for every trimmed non-empty input, an input with no
dot or with a space produces the fixed search URL with the input
percent-encoded as the `q` parameter; otherwise `https://` is prepended when
the input does not start with the literal text `http` (rather than when no
scheme prefix is present), and the resulting candidate either parses and is
navigated to, or the inline InvalidUrl error is shown with no navigation. -/
theorem c5_resolver (raw : String) (h : trimStr raw ≠ "") :
    (¬strIncludes (trimStr raw) "." = true ∨ strIncludes (trimStr raw) " " = true →
        handleUrlSubmit raw
          = .navigate ("https://duckduckgo.com/html/?q=" ++ encodeURIComponent (trimStr raw)))
    ∧ (strIncludes (trimStr raw) "." = true → strIncludes (trimStr raw) " " = false →
        (strStartsWith (trimStr raw) "http" = true →
          ((parseURL (trimStr raw)).isSome = true →
            handleUrlSubmit raw = .navigate (trimStr raw))
          ∧ (parseURL (trimStr raw) = none → handleUrlSubmit raw = .invalidUrl))
        ∧ (strStartsWith (trimStr raw) "http" = false →
          ((parseURL ("https://" ++ trimStr raw)).isSome = true →
            handleUrlSubmit raw = .navigate ("https://" ++ trimStr raw))
          ∧ (parseURL ("https://" ++ trimStr raw) = none →
            handleUrlSubmit raw = .invalidUrl))) := by
  constructor
  · intro hq
    rcases hq with hq | hq
    · by_cases hspace : strIncludes (trimStr raw) " " = true <;>
        simp [handleUrlSubmit, h, hq, hspace]
    · by_cases hdot : strIncludes (trimStr raw) "." = true <;>
        simp [handleUrlSubmit, h, hdot, hq]
  · intro hdot hspace
    constructor
    · intro hpref
      constructor
      · intro hsome
        rcases Option.isSome_iff_exists.mp hsome with ⟨u, hu⟩
        simp [handleUrlSubmit, h, hdot, hspace, hpref, hu]
      · intro hnone
        simp [handleUrlSubmit, h, hdot, hspace, hpref, hnone]
    · intro hpref
      constructor
      · intro hsome
        rcases Option.isSome_iff_exists.mp hsome with ⟨u, hu⟩
        simp [handleUrlSubmit, h, hdot, hspace, hpref, hu]
      · intro hnone
        simp [handleUrlSubmit, h, hdot, hspace, hpref, hnone]

/-- Witness for C5 amended: `example.com` gets the default scheme and
navigates to `https://example.com`. -/
theorem c5_witness :
    handleUrlSubmit "example.com" = SubmitResult.navigate "https://example.com" :=
  (((c5_resolver "example.com" (by decide)).2 (by decide) (by decide)).2 (by decide)).1
    (by decide)

/-! ### Claim C6 -/

/-- Claim C6: after every sequence of navigations from the initial state the
History Stack holds at most 50 entries; a push onto a full stack evicts the
oldest (front) entry, never the newest; and the stack changes only on a
forward navigation away from a non-empty location distinct from the target. -/
theorem c6_history_bounded :
    (∀ evs : List NavEvent, (runNav initialState evs).historyStack.length ≤ MAX_HISTORY)
    ∧ (∀ (st : AppState) (url : String) (o : FetchOutcome),
        st.isLoading = false → url ≠ "" →
        st.historyStack.length = MAX_HISTORY → st.currUrl ≠ "" → st.currUrl ≠ url →
        (loadPage st url false o).historyStack = st.historyStack.tail ++ [st.currUrl])
    ∧ (∀ (st : AppState) (url : String) (b : Bool) (o : FetchOutcome),
        b = true ∨ st.currUrl = "" ∨ st.currUrl = url →
        (loadPage st url b o).historyStack = st.historyStack) := by
  have hrun : ∀ (evs : List NavEvent) (st : AppState),
      st.historyStack.length ≤ MAX_HISTORY →
      (runNav st evs).historyStack.length ≤ MAX_HISTORY := by
    intro evs
    induction evs with
    | nil => exact fun st h => h
    | cons e rest ih =>
      intro st h
      cases e with
      | nav url b o => exact ih _ (loadPage_history_le st url b o h)
  refine ⟨fun evs => hrun evs initialState (by decide), ?_, ?_⟩
  · intro st url o hbusy hurl hlen hcne hcdiff
    have hstack : (loadPage st url false o).historyStack
        = pushHistory st.historyStack st.currUrl := by
      cases o with
      | failure => simp [loadPage, hbusy, hurl, hcne, hcdiff]
      | success ct src =>
        by_cases hct : ctUnsupported ct = true <;>
          simp [loadPage, hbusy, hurl, hcne, hcdiff, hct]
    rw [hstack]
    unfold pushHistory
    have hover : (st.historyStack ++ [st.currUrl]).length > MAX_HISTORY := by
      simp [hlen]
    rw [if_pos hover]
    cases hcons : st.historyStack with
    | nil =>
      rw [hcons] at hlen
      simp [MAX_HISTORY] at hlen
    | cons x xs => simp
  · intro st url b o hcond
    by_cases hbusy : st.isLoading = true
    · simp [loadPage, hbusy]
    · by_cases hurl : url = ""
      · simp [loadPage, hbusy, hurl]
      · have hp : ¬(b = false ∧ ¬st.currUrl = "" ∧ ¬st.currUrl = url) := by
          rcases hcond with h | h | h <;> simp [h]
        cases o with
        | failure => simp [loadPage, hbusy, hurl, hp]
        | success ct src =>
          by_cases hct : ctUnsupported ct = true <;> simp [loadPage, hbusy, hurl, hp, hct]

/-- Witness for C6: pushing onto a full 50-entry stack drops the oldest entry
and appends the departed location. -/
theorem c6_witness :
    (loadPage { stA with historyStack := List.replicate 50 "https://x.example/" }
        "https://b.example/" false .failure).historyStack
      = (List.replicate 50 "https://x.example/").tail ++ ["https://a.example/"] :=
  c6_history_bounded.2.1 { stA with historyStack := List.replicate 50 "https://x.example/" }
    "https://b.example/" .failure (by decide) (by decide) (by decide) (by decide) (by decide)

/-! ### Claim C7 -/

/-- Counterexample for C7 as stated: with two links both measuring top 0 the
code switches to the data-attribute hints, and the returned order — hint
order — is not sorted by the measured (top, left) keys: the element returned
first measures further right (left 5) than the element after it (left 1). -/
theorem c7_counterexample :
    getSortedLinks [⟨0, 5, none, some "0", 0⟩, ⟨0, 1, none, some "9", 1⟩]
      = [⟨0, 5, none, some "0", 0⟩, ⟨0, 1, none, some "9", 1⟩]
    ∧ ¬measuredLe (⟨0, 5, none, some "0", 0⟩ : LinkEl) ⟨0, 1, none, some "9", 1⟩ := by
  decide

/-- Claim C7 as amended: whenever not every measured top coordinate is 0 (so
the hint fallback is off), the ordered-links computation is total and stable:
it returns a permutation of the input of the same length, sorted by ascending
measured top with ties broken by ascending measured left, and every pair
already in comparator order — equal-key pairs in particular — keeps its
input order. -/
theorem c7_ordered_links (links : List LinkEl)
    (h : links.all (fun l => l.top = 0) = false) :
    List.Perm (getSortedLinks links) links
    ∧ (getSortedLinks links).length = links.length
    ∧ List.Sorted measuredLe (getSortedLinks links)
    ∧ (∀ a b : LinkEl, measuredLe a b → List.Sublist [a, b] links →
        List.Sublist [a, b] (getSortedLinks links)) := by
  have hg : getSortedLinks links = List.insertionSort measuredLe links := by
    unfold getSortedLinks
    rw [if_neg (by simp [h])]
  rw [hg]
  exact ⟨List.perm_insertionSort measuredLe links, List.length_insertionSort measuredLe links,
    List.sorted_insertionSort measuredLe links,
    fun a b hab hsub => List.pair_sublist_insertionSort hab hsub⟩

/-- Witness for C7 amended: a concrete non-degenerate list comes back sorted
by the measured keys. -/
theorem c7_witness :
    List.Sorted measuredLe
      (getSortedLinks [⟨10, 5, none, none, 0⟩, ⟨3, 7, none, none, 1⟩]) :=
  (c7_ordered_links [⟨10, 5, none, none, 0⟩, ⟨3, 7, none, none, 1⟩] (by decide)).2.2.1

/-! ### Claim C8 -/

/-- Counterexample for C8 as stated: two links report the identical measured
top coordinate 5 — the spec-worded degenerate signal — yet the code does not
fall back to the data hints (its test is top = 0, not all-tops-identical):
it sorts by the measured positions while the spec-worded computation sorts by
the hints, and the two orders differ. -/
theorem c8_counterexample :
    getSortedLinks [⟨5, 9, some "0", some "0", 0⟩, ⟨5, 1, some "0", some "5", 1⟩]
      = [⟨5, 1, some "0", some "5", 1⟩, ⟨5, 9, some "0", some "0", 0⟩]
    ∧ specOrderedLinks [⟨5, 9, some "0", some "0", 0⟩, ⟨5, 1, some "0", some "5", 1⟩]
      = [⟨5, 9, some "0", some "0", 0⟩, ⟨5, 1, some "0", some "5", 1⟩]
    ∧ getSortedLinks [⟨5, 9, some "0", some "0", 0⟩, ⟨5, 1, some "0", some "5", 1⟩]
      ≠ specOrderedLinks [⟨5, 9, some "0", some "0", 0⟩, ⟨5, 1, some "0", some "5", 1⟩] := by
  decide

/-- Claim C8 as amended: the hint fallback triggers exactly when every
measured top coordinate equals 0 (the non-layout signal), not when the top
coordinates are merely all identical; otherwise the measured positions are
used. -/
theorem c8_degenerate_fallback (links : List LinkEl) :
    (links.all (fun l => l.top = 0) = true →
      getSortedLinks links = List.insertionSort hintLe links)
    ∧ (links.all (fun l => l.top = 0) = false →
      getSortedLinks links = List.insertionSort measuredLe links) := by
  constructor
  · intro h
    unfold getSortedLinks
    rw [if_pos h]
  · intro h
    unfold getSortedLinks
    rw [if_neg (by simp [h])]

/-- Witness for C8 amended: an all-zero-top list is sorted by its data
hints. -/
theorem c8_witness :
    getSortedLinks [⟨0, 0, some "3", none, 0⟩, ⟨0, 0, some "1", none, 1⟩]
      = List.insertionSort hintLe [⟨0, 0, some "3", none, 0⟩, ⟨0, 0, some "1", none, 1⟩] :=
  (c8_degenerate_fallback [⟨0, 0, some "3", none, 0⟩, ⟨0, 0, some "1", none, 1⟩]).1
    (by decide)

/-! ### Claim C9 -/

/-- Claim C9: from Reading mode on a non-empty location with empty history,
successfully loading a different non-empty bookmark URL B pushes the prior
location as the single history entry; pressing Backspace with that entry
present pops it and reloads it with the forward push suppressed, returning
the Document Location to the pre-B value and the History Stack to its prior
(empty) contents. -/
theorem c9_back_roundtrip (st : AppState) (B : String) (ctB ctL : Option String)
    (srcB srcL : HNode)
    (hmenu : st.isMenuOpen = false) (hurlbar : st.isUrlBarOpen = false)
    (habout : st.isAboutOpen = false) (hbusy : st.isLoading = false)
    (hL : st.currUrl ≠ "") (hfix : unwrapRedirector st.currUrl = st.currUrl)
    (hB : B ≠ "") (hne : st.currUrl ≠ B)
    (hctB : ctUnsupported ctB = false) (hctL : ctUnsupported ctL = false)
    (hhist : st.historyStack = []) :
    (loadPage st B false (.success ctB srcB)).historyStack = [st.currUrl]
    ∧ (backspaceStep (loadPage st B false (.success ctB srcB))
        (.success ctL srcL)).currUrl = st.currUrl
    ∧ (backspaceStep (loadPage st B false (.success ctB srcB))
        (.success ctL srcL)).historyStack = st.historyStack := by
  have h1 : loadPage st B false (.success ctB srcB)
      = { st with historyStack := [st.currUrl]
                  reader := .page (sanitizeForest (unwrapRedirector B) srcB.childNodes)
                  selectedLinkIndex := -1
                  currUrl := unwrapRedirector B
                  urlInput := unwrapRedirector B
                  lastVisited := unwrapRedirector B } := by
    simp [loadPage, hbusy, hB, hL, hne, hctB, hhist, pushHistory, MAX_HISTORY]
  refine ⟨by rw [h1], ?_, ?_⟩
  · rw [h1]
    simp [backspaceStep, hmenu, hurlbar, habout, loadPage, hbusy, hL, hfix, hctL]
  · rw [h1, hhist]
    simp [backspaceStep, hmenu, hurlbar, habout, loadPage, hbusy, hL, hfix, hctL]

/-- Witness for C9: a concrete forward load away from page A followed by
Backspace lands back on page A. -/
theorem c9_witness :
    (backspaceStep (loadPage stA "https://b.example/" false
        (.success none (HNode.elem "body" [] .nil)))
      (.success none (HNode.elem "body" [] .nil))).currUrl = stA.currUrl :=
  (c9_back_roundtrip stA "https://b.example/" none none (HNode.elem "body" [] .nil)
    (HNode.elem "body" [] .nil) (by decide) (by decide) (by decide) (by decide) (by decide)
    (by decide) (by decide) (by decide) (by decide) (by decide) (by decide)).2.1

/-! ### Claim C10 -/

/-- Claim C10 (implicit): while a load is in flight (busy flag set), no
overlay mode active, and the History Stack non-empty, Backspace removes the
most recent history entry but performs no navigation — the pop happens
before loadPage's busy guard drops the call — so the Document Location and
reader content are unchanged, the app stays open, and the popped entry is
silently lost. -/
theorem c10_busy_backspace (st : AppState) (o : FetchOutcome)
    (hbusy : st.isLoading = true)
    (hmenu : st.isMenuOpen = false) (hurlbar : st.isUrlBarOpen = false)
    (habout : st.isAboutOpen = false)
    (hh : st.historyStack ≠ []) :
    backspaceStep st o = { st with historyStack := st.historyStack.dropLast }
    ∧ (backspaceStep st o).currUrl = st.currUrl
    ∧ (backspaceStep st o).reader = st.reader
    ∧ (backspaceStep st o).closed = st.closed
    ∧ (backspaceStep st o).historyStack.length + 1 = st.historyStack.length := by
  have hx : ∃ x, st.historyStack.getLast? = some x := by
    cases hcons : st.historyStack with
    | nil => exact absurd hcons hh
    | cons a l => exact ⟨(a :: l).getLast (by simp), List.getLast?_eq_getLast _ _⟩
  rcases hx with ⟨x, hx⟩
  have hb : backspaceStep st o = { st with historyStack := st.historyStack.dropLast } := by
    unfold backspaceStep
    rw [if_neg (by simp [habout]), if_neg (by simp [hurlbar]), if_neg (by simp [hmenu]), hx]
    simp [loadPage, hbusy]
  have hlen : (backspaceStep st o).historyStack.length + 1 = st.historyStack.length := by
    rw [hb]
    have hpos : 0 < st.historyStack.length := List.length_pos.mpr hh
    simp [List.length_dropLast]
    omega
  exact ⟨hb, by rw [hb], by rw [hb], by rw [hb], hlen⟩

/-- Witness for C10: with a load in flight, Backspace silently discards the
single history entry and leaves the location unchanged. -/
theorem c10_witness :
    (backspaceStep { stA with isLoading := true, historyStack := ["https://x.example/"] }
        .failure).currUrl = stA.currUrl
    ∧ (backspaceStep { stA with isLoading := true, historyStack := ["https://x.example/"] }
        .failure).historyStack.length + 1 = 1 :=
  ⟨(c10_busy_backspace { stA with isLoading := true, historyStack := ["https://x.example/"] }
      .failure (by decide) (by decide) (by decide) (by decide) (by decide)).2.1,
    (c10_busy_backspace { stA with isLoading := true, historyStack := ["https://x.example/"] }
      .failure (by decide) (by decide) (by decide) (by decide) (by decide)).2.2.2.2⟩

end Violoncello
